import Mathlib

/-!
Shallow embedding of the job normalization / deduplication pipeline of the
joblio repository (src/lib/jobs/normalize.ts) and of the pure logic of the
sync orchestrator (src/app/api/jobs/sync/route.ts), together with theorems
settling the specification claims about them.

Host-language (JavaScript) string primitives `trim`, `toLowerCase` and
`includes` are modelled on character lists; host `Date` parsing and host
`Number` parsing are parameters of the embedding (the claims hold for every
choice of those parsers). JavaScript numbers appearing in job records are
modelled as integers: no claim concerns fractional or non-finite values.
-/

/-! ## JavaScript string primitives -/

/-- Model of JavaScript `String.prototype.toLowerCase`. -/
def jsToLower (s : String) : String := String.mk (s.data.map Char.toLower)

/-- Whitespace test used by the model of `trim`. -/
def jsIsWs (c : Char) : Bool := c.isWhitespace

/-- Model of JavaScript `String.prototype.trim`: drop leading and trailing
whitespace. -/
def jsTrim (s : String) : String :=
  String.mk (((s.data.dropWhile jsIsWs).reverse.dropWhile jsIsWs).reverse)

/-- `charsHavePrefix p l` holds when `p` is an initial segment of `l`. -/
def charsHavePrefix : List Char → List Char → Bool
  | [], _ => true
  | _ :: _, [] => false
  | p :: ps, c :: cs => p == c && charsHavePrefix ps cs

/-- `charsInclude pat l`: some suffix of `l` starts with `pat`. -/
def charsInclude (pat : List Char) : List Char → Bool
  | [] => charsHavePrefix pat []
  | c :: cs => charsHavePrefix pat (c :: cs) || charsInclude pat cs

/-- Model of JavaScript `String.prototype.includes`. -/
def jsIncludes (s pat : String) : Bool := charsInclude pat.data s.data

/-! ## JSON-like values (the `unknown` upstream payload) -/

/-- A JavaScript value as it can reach `normalizeJSearchJob` through
`JSON.parse` plus `undefined` for missing fields. Numbers are modelled as
integers (see the file comment). -/
inductive JSVal where
  | vNull
  | vUndefined
  | vBool (b : Bool)
  | vNum (n : Int)
  | vStr (s : String)
  | vArr (elems : List JSVal)
  | vObj (fields : List (String × JSVal))
deriving Repr

/-- Property read `r.key`: defined on objects; `undefined` (here `none`)
everywhere else, including the array fields we never index numerically. -/
def jsGet : JSVal → String → Option JSVal
  | JSVal.vObj fs, k => (fs.find? (fun p => p.1 == k)).map (fun p => p.2)
  | _, _ => none

/-- `asRecord` from normalize.ts: `if (!v || typeof v !== "object") return null`.
Objects and arrays are truthy and have `typeof` `"object"`; `null`,
`undefined`, booleans, numbers and strings are rejected. -/
def asRecord : JSVal → Option JSVal
  | JSVal.vObj fs => some (JSVal.vObj fs)
  | JSVal.vArr es => some (JSVal.vArr es)
  | _ => none

/-- `getString` from normalize.ts:
`typeof v === "string" && v.trim() ? v.trim() : null`. -/
def getString : Option JSVal → Option String
  | some (JSVal.vStr s) => if jsTrim s = "" then none else some (jsTrim s)
  | _ => none

/-- `getNumber` from normalize.ts, parameterized by the host `Number(string)`
parser (which also carries the `Number.isFinite` test: an unparseable or
non-finite string yields `none`). A native model number is always finite. -/
def getNumber (parseNum : String → Option Int) : Option JSVal → Option Int
  | some (JSVal.vNum n) => some n
  | some (JSVal.vStr s) => if jsTrim s = "" then none else parseNum s
  | _ => none

/-- `toIsoOrNull` from normalize.ts, parameterized by the host date parser
`toIso` that returns the ISO string of a parseable date and `none` for an
invalid one (`Number.isNaN(d.getTime())`). -/
def toIsoOrNull (toIso : String → Option String) (v : Option JSVal) : Option String :=
  match getString v with
  | none => none
  | some s => toIso s

/-! ## NormalizedJobInsert and the Normalizer -/

/-- The `NormalizedJobInsert` record type of normalize.ts. The `source`
field is the fixed provider tag (always `"jsearch"` in records produced by
the Normalizer). -/
structure NormalizedJobInsert where
  source : String
  external_job_id : Option String
  apply_url : Option String
  title : String
  company_name : Option String
  company_website : Option String
  location_text : Option String
  country : Option String
  city : Option String
  region : Option String
  is_remote : Bool
  remote_type : Option String
  employment_type : Option String
  description : Option String
  posted_at : Option String
  salary_min : Option Int
  salary_max : Option Int
  salary_currency : Option String
  salary_period : Option String
  raw : JSVal
deriving Repr

/-- `inferRemoteType` from normalize.ts. -/
def inferRemoteType (isRemote : Bool) (locationText : Option String) : Option String :=
  if isRemote then some "remote"
  else
    let t := jsToLower (locationText.getD "")
    if t = "" then none
    else if jsIncludes t "hybrid" then some "hybrid"
    else if jsIncludes t "on-site" || jsIncludes t "onsite" || jsIncludes t "on site" then
      some "onsite"
    else none

/-- The `job_is_remote` flag test of normalize.ts:
`(typeof v === "boolean" && v) || (typeof v === "string" && v.toLowerCase() === "true")`. -/
def isRemoteFlag : Option JSVal → Bool
  | some (JSVal.vBool b) => b
  | some (JSVal.vStr s) => jsToLower s == "true"
  | _ => false

/-- `normalizeJSearchJob` from normalize.ts, parameterized by the host date
and number parsers. The truthiness test `locationText ?` of the source
coincides with matching on the option: `getString` never returns an empty
string, and on the empty string both sides give `false`. -/
def normalizeJSearchJob (toIso : String → Option String) (parseNum : String → Option Int)
    (item : JSVal) : Option NormalizedJobInsert :=
  match asRecord item with
  | none => none
  | some r =>
    match getString (jsGet r "job_title") with
    | none => none
    | some title =>
      let externalJobId :=
        getString (jsGet r "job_id") <|> getString (jsGet r "id") <|>
          getString (jsGet r "job_google_link")
      let applyUrl :=
        getString (jsGet r "job_apply_link") <|> getString (jsGet r "job_apply_link_direct") <|>
          getString (jsGet r "job_google_link")
      let locationText :=
        getString (jsGet r "job_location") <|> getString (jsGet r "job_city") <|>
          getString (jsGet r "job_country")
      let isRemoteRaw := isRemoteFlag (jsGet r "job_is_remote")
      let isRemote :=
        isRemoteRaw ||
          (match locationText with
           | some t => jsIncludes (jsToLower t) "remote"
           | none => false)
      some
        { source := "jsearch"
          external_job_id := externalJobId
          apply_url := applyUrl
          title := title
          company_name :=
            getString (jsGet r "employer_name") <|> getString (jsGet r "company_name")
          company_website :=
            getString (jsGet r "employer_website") <|> getString (jsGet r "company_website")
          location_text := locationText
          country := getString (jsGet r "job_country")
          city := getString (jsGet r "job_city")
          region := getString (jsGet r "job_state") <|> getString (jsGet r "job_region")
          is_remote := isRemote
          remote_type := inferRemoteType isRemote locationText
          employment_type :=
            getString (jsGet r "job_employment_type") <|>
              getString (jsGet r "job_employment_types")
          description := getString (jsGet r "job_description")
          posted_at :=
            toIsoOrNull toIso (jsGet r "job_posted_at_datetime_utc") <|>
              toIsoOrNull toIso (jsGet r "job_posted_at_datetime") <|>
                toIsoOrNull toIso (jsGet r "job_posted_at")
          salary_min := getNumber parseNum (jsGet r "job_min_salary")
          salary_max := getNumber parseNum (jsGet r "job_max_salary")
          salary_currency := getString (jsGet r "job_salary_currency")
          salary_period := getString (jsGet r "job_salary_period")
          raw := r }

/-! ## Dedupe key and Deduplicator -/

/-- `getJobDedupeKey` from normalize.ts. The source tests
`if (job.external_job_id)` / `if (job.apply_url)` are JavaScript truthiness
tests, so a present-but-empty string falls through like an absent one. -/
def getJobDedupeKey (job : NormalizedJobInsert) : Option String :=
  match job.external_job_id with
  | some s =>
    if s = "" then
      match job.apply_url with
      | some u => if u = "" then none else some (job.source ++ "::url::" ++ u)
      | none => none
    else some (job.source ++ "::id::" ++ s)
  | none =>
    match job.apply_url with
    | some u => if u = "" then none else some (job.source ++ "::url::" ++ u)
    | none => none

/-- The loop of `dedupeNormalizedJobs`, with the `seen` set of keys made an
explicit accumulator (a list of the keys added so far). -/
def dedupeGo (seen : List String) : List NormalizedJobInsert → List NormalizedJobInsert
  | [] => []
  | j :: js =>
    match getJobDedupeKey j with
    | none => dedupeGo seen js
    | some k => if k ∈ seen then dedupeGo seen js else j :: dedupeGo (k :: seen) js

/-- `dedupeNormalizedJobs` from normalize.ts. -/
def dedupeNormalizedJobs (jobs : List NormalizedJobInsert) : List NormalizedJobInsert :=
  dedupeGo [] jobs

/-- A job record with the given identity fields and inert remaining fields;
used for concrete instances in witnesses and counterexamples. -/
def mkKeyJob (eid url : Option String) : NormalizedJobInsert :=
  { source := "jsearch", external_job_id := eid, apply_url := url, title := "t"
    company_name := none, company_website := none, location_text := none
    country := none, city := none, region := none, is_remote := false
    remote_type := none, employment_type := none, description := none
    posted_at := none, salary_min := none, salary_max := none
    salary_currency := none, salary_period := none, raw := JSVal.vNull }

example :
    getJobDedupeKey (mkKeyJob (some "x") (some "u")) = some "jsearch::id::x" := by decide

example :
    getJobDedupeKey (mkKeyJob none (some "u")) = some "jsearch::url::u" := by decide

example :
    dedupeNormalizedJobs [mkKeyJob (some "a") none, mkKeyJob (some "a") (some "u"),
      mkKeyJob none none, mkKeyJob none (some "u")] =
      [mkKeyJob (some "a") none, mkKeyJob none (some "u")] := rfl

/-! ## Sync orchestrator logic (src/app/api/jobs/sync/route.ts) -/

/-- The `resume_profiles` row read by the orchestrator (route.ts). -/
structure ResumeProfileRow where
  roles : Option (List String)
  location_preference : Option String
  remote_intent : Option String

/-- `pickRoles` from route.ts, applied as `pickRoles(profile.roles ?? [])`.
Elements are strings (the `typeof r === "string"` guard is always taken):
trim each, keep the non-empty ones, keep the first 3 (`slice(0, 3)`). -/
def pickRoles (raw : Option (List String)) : List String :=
  (((raw.getD []).map (fun r => jsTrim r)).filter (fun r => decide (0 < r.length))).take 3

/-- `buildQuery` from route.ts. -/
def buildQuery (role : String) (locationPref remoteIntent : Option String) : String :=
  let loc := jsTrim (locationPref.getD "")
  let remote := jsToLower (remoteIntent.getD "")
  let wantsRemote := jsIncludes remote "remote"
  if wantsRemote && loc ≠ "" then role ++ " remote in " ++ loc
  else if wantsRemote then role ++ " remote"
  else if loc ≠ "" then role ++ " in " ++ loc
  else role

/-- The error shape the insert loop of route.ts inspects: a possibly absent
Postgres error code. `none` from the store means the insert succeeded. -/
structure InsertError where
  code : Option String

/-- The insert loop of route.ts (step 6), with the three counters as explicit
accumulators. `ins` is the job store: for each record, `none` on success or
the returned error. Success bumps `inserted`; code `"23505"` (Postgres unique
violation) bumps `skippedDuplicates`; any other error bumps `failed`; the
loop always continues with the rest of the batch. -/
def insertLoop (ins : NormalizedJobInsert → Option InsertError) :
    List NormalizedJobInsert → Nat → Nat → Nat → Nat × Nat × Nat
  | [], inserted, skipped, failed => (inserted, skipped, failed)
  | j :: js, inserted, skipped, failed =>
    match ins j with
    | none => insertLoop ins js (inserted + 1) skipped failed
    | some e =>
      if e.code = some "23505" then insertLoop ins js inserted (skipped + 1) failed
      else insertLoop ins js inserted skipped (failed + 1)

/-- The insert loop started with all counters at zero. -/
def runInserts (ins : NormalizedJobInsert → Option InsertError)
    (jobs : List NormalizedJobInsert) : Nat × Nat × Nat :=
  insertLoop ins jobs 0 0 0

/-- The upstream queries issued by step 4 of the orchestrator: one
`buildQuery` result per picked role, in role order. -/
def syncQueries (roles : Option (List String)) (loc intent : Option String) : List String :=
  (pickRoles roles).map (fun role => buildQuery role loc intent)

/-- The successful-response body of route.ts (counters and roles only; the
`ok` and `user_id` fields carry no pipeline content). -/
structure SyncRunSummary where
  roles_used : List String
  fetched_items : Nat
  normalized_items : Nat
  deduped_items : Nat
  inserted : Nat
  skipped_duplicates : Nat
  failed : Nat
deriving Repr, DecidableEq

/-- Steps 3–6 of `POST` in route.ts as a pure pipeline. `fetch` is the
upstream search collaborator (query to returned items), `ins` the job store.
`none` models the early 400 response when no usable role exists; auth and
store failures abort before any counting and are outside this model. -/
def runSync (toIso : String → Option String) (parseNum : String → Option Int)
    (fetch : String → List JSVal) (ins : NormalizedJobInsert → Option InsertError)
    (profile : ResumeProfileRow) : Option SyncRunSummary :=
  let roles := pickRoles (some (profile.roles.getD []))
  if roles.length = 0 then none
  else
    let rawItems :=
      (roles.map (fun role =>
        fetch (buildQuery role profile.location_preference profile.remote_intent))).flatten
    let normalized := rawItems.filterMap (fun it => normalizeJSearchJob toIso parseNum it)
    let deduped := dedupeNormalizedJobs normalized
    let counts := runInserts ins deduped
    some
      { roles_used := roles
        fetched_items := rawItems.length
        normalized_items := normalized.length
        deduped_items := deduped.length
        inserted := counts.1
        skipped_duplicates := counts.2.1
        failed := counts.2.2 }

/-! ## Spec-side definitions (written from the claims being checked) -/

/-- Written from the amended claim for the dedupe key: the key is the source
tag, a discriminator naming which identifier was used (`id` for
`external_job_id`, `url` for `apply_url`), and the identifier, joined with
`::`; `external_job_id` is preferred, and a present-but-empty identifier
counts as absent. -/
def presentStr : Option String → Option String
  | some s => if s = "" then none else some s
  | none => none

/-- Written from the amended claim (continued): preference order realized on
the two identifier fields after discarding absent or empty values. -/
def dedupeKeySpec (job : NormalizedJobInsert) : Option String :=
  match presentStr job.external_job_id with
  | some s => some (job.source ++ "::id::" ++ s)
  | none =>
    match presentStr job.apply_url with
    | some u => some (job.source ++ "::url::" ++ u)
    | none => none

/-- Written from the claim about `buildQuery`: wants-remote and non-empty
trimmed location give `"<role> remote in <location>"`; wants-remote alone
`"<role> remote"`; location alone `"<role> in <location>"`; else the bare
role. Wants-remote means the intent contains `"remote"` case-insensitively. -/
def buildQuerySpec (role : String) (locationPref remoteIntent : Option String) : String :=
  let wants := jsIncludes (jsToLower (remoteIntent.getD "")) "remote"
  let loc := jsTrim (locationPref.getD "")
  if wants ∧ loc ≠ "" then role ++ " remote in " ++ loc
  else if wants ∧ loc = "" then role ++ " remote"
  else if ¬ wants ∧ loc ≠ "" then role ++ " in " ++ loc
  else role

/-! ## Concrete instances and outcome classifiers used below -/

/-- Concrete upstream item used in witnesses: a remote job with a title. -/
def itemRemote : JSVal :=
  JSVal.vObj [("job_title", JSVal.vStr " Senior Dev "), ("job_is_remote", JSVal.vBool true),
    ("job_id", JSVal.vStr "j1")]

/-- Host parsers that recognize nothing; any instantiation works for the
claims, this one keeps witnesses computable. -/
def hostNoIso : String → Option String := fun _ => none

/-- Number-parser analogue of `hostNoIso`. -/
def hostNoNum : String → Option Int := fun _ => none

/-- The record `normalizeJSearchJob` produces from `itemRemote`. -/
def recRemote : NormalizedJobInsert :=
  { source := "jsearch", external_job_id := some "j1", apply_url := none
    title := "Senior Dev", company_name := none, company_website := none
    location_text := none, country := none, city := none, region := none
    is_remote := true, remote_type := some "remote", employment_type := none
    description := none, posted_at := none, salary_min := none, salary_max := none
    salary_currency := none, salary_period := none, raw := itemRemote }

example : normalizeJSearchJob hostNoIso hostNoNum itemRemote = some recRemote := rfl

/-- Concrete upstream item whose location text marks it as hybrid. -/
def itemHybrid : JSVal :=
  JSVal.vObj [("job_title", JSVal.vStr "QA"), ("job_location", JSVal.vStr "Berlin (Hybrid)")]

/-- The record `normalizeJSearchJob` produces from `itemHybrid`. -/
def recHybrid : NormalizedJobInsert :=
  { source := "jsearch", external_job_id := none, apply_url := none
    title := "QA", company_name := none, company_website := none
    location_text := some "Berlin (Hybrid)", country := none, city := none, region := none
    is_remote := false, remote_type := some "hybrid", employment_type := none
    description := none, posted_at := none, salary_min := none, salary_max := none
    salary_currency := none, salary_period := none, raw := itemHybrid }

example : normalizeJSearchJob hostNoIso hostNoNum itemHybrid = some recHybrid := rfl

/-- Classifier for a successful insert. -/
def insertOk (o : Option InsertError) : Bool := o.isNone

/-- Classifier for a Postgres unique-violation response. -/
def insertDup (o : Option InsertError) : Bool :=
  match o with
  | some e => e.code == some "23505"
  | none => false

/-- Classifier for any other insert failure. -/
def insertOtherFail (o : Option InsertError) : Bool :=
  match o with
  | some e => !(e.code == some "23505")
  | none => false

/-- Concrete profile used in the C10 witness. -/
def sampleProfile : ResumeProfileRow :=
  { roles := some ["A"], location_preference := none, remote_intent := none }

/-- The summary `runSync` produces from `sampleProfile` with an upstream
that returns nothing. -/
def sampleSummary : SyncRunSummary :=
  { roles_used := ["A"], fetched_items := 0, normalized_items := 0, deduped_items := 0
    inserted := 0, skipped_duplicates := 0, failed := 0 }

example :
    runSync hostNoIso hostNoNum (fun _ => []) (fun _ => none) sampleProfile =
      some sampleSummary := rfl


/-! ## Lemmas about the Deduplicator loop -/

theorem dedupeGo_sublist (l : List NormalizedJobInsert) :
    ∀ seen, (dedupeGo seen l).Sublist l := by
  induction l with
  | nil => intro seen; simp [dedupeGo]
  | cons j js ih =>
    intro seen
    cases h : getJobDedupeKey j with
    | none => simp only [dedupeGo, h]; exact (ih seen).cons j
    | some k =>
      simp only [dedupeGo, h]
      by_cases hk : k ∈ seen
      · rw [if_pos hk]; exact (ih seen).cons j
      · rw [if_neg hk]; exact (ih (k :: seen)).cons₂ j

theorem dedupeGo_key_isSome (l : List NormalizedJobInsert) :
    ∀ seen j, j ∈ dedupeGo seen l → getJobDedupeKey j ≠ none := by
  induction l with
  | nil => intro seen j hj; simp [dedupeGo] at hj
  | cons a as ih =>
    intro seen j hj
    cases h : getJobDedupeKey a with
    | none =>
      simp only [dedupeGo, h] at hj
      exact ih seen j hj
    | some k =>
      simp only [dedupeGo, h] at hj
      by_cases hk : k ∈ seen
      · rw [if_pos hk] at hj; exact ih seen j hj
      · rw [if_neg hk] at hj
        rcases List.mem_cons.mp hj with rfl | hj'
        · rw [h]; intro hc; cases hc
        · exact ih (k :: seen) j hj'

theorem dedupeGo_key_fresh (l : List NormalizedJobInsert) :
    ∀ seen j, j ∈ dedupeGo seen l → ∀ k, getJobDedupeKey j = some k → k ∉ seen := by
  induction l with
  | nil => intro seen j hj; simp [dedupeGo] at hj
  | cons a as ih =>
    intro seen j hj k hk
    cases h : getJobDedupeKey a with
    | none =>
      simp only [dedupeGo, h] at hj
      exact ih seen j hj k hk
    | some ka =>
      simp only [dedupeGo, h] at hj
      by_cases hka : ka ∈ seen
      · rw [if_pos hka] at hj; exact ih seen j hj k hk
      · rw [if_neg hka] at hj
        rcases List.mem_cons.mp hj with rfl | hj'
        · rw [h] at hk; injection hk with hk; subst hk; exact hka
        · intro hmem
          exact ih (ka :: seen) j hj' k hk (List.mem_cons_of_mem _ hmem)

theorem dedupeGo_pairwise_keys (l : List NormalizedJobInsert) :
    ∀ seen, (dedupeGo seen l).Pairwise
      (fun a b => getJobDedupeKey a ≠ getJobDedupeKey b) := by
  induction l with
  | nil => intro seen; simp [dedupeGo]
  | cons a as ih =>
    intro seen
    cases h : getJobDedupeKey a with
    | none => simp only [dedupeGo, h]; exact ih seen
    | some k =>
      simp only [dedupeGo, h]
      by_cases hk : k ∈ seen
      · rw [if_pos hk]; exact ih seen
      · rw [if_neg hk]
        refine List.Pairwise.cons ?_ (ih (k :: seen))
        intro b hb heq
        cases hx : getJobDedupeKey b with
        | none => exact dedupeGo_key_isSome as (k :: seen) b hb hx
        | some kb =>
          have hfresh := dedupeGo_key_fresh as (k :: seen) b hb kb hx
          rw [h, hx] at heq
          injection heq with heq
          subst heq
          exact hfresh (List.mem_cons_self _ _)

theorem dedupeGo_complete (l : List NormalizedJobInsert) :
    ∀ seen x k, x ∈ l → getJobDedupeKey x = some k → k ∉ seen →
      ∃ y, y ∈ dedupeGo seen l ∧ getJobDedupeKey y = some k := by
  induction l with
  | nil => intro seen x k hx; simp at hx
  | cons a as ih =>
    intro seen x k hx hk hks
    cases h : getJobDedupeKey a with
    | none =>
      simp only [dedupeGo, h]
      rcases List.mem_cons.mp hx with rfl | hx'
      · rw [h] at hk; cases hk
      · exact ih seen x k hx' hk hks
    | some ka =>
      simp only [dedupeGo, h]
      by_cases hka : ka ∈ seen
      · rw [if_pos hka]
        rcases List.mem_cons.mp hx with rfl | hx'
        · rw [h] at hk; injection hk with hk; subst hk; exact absurd hka hks
        · exact ih seen x k hx' hk hks
      · rw [if_neg hka]
        by_cases hkk : k = ka
        · subst hkk
          exact ⟨a, List.mem_cons_self _ _, h⟩
        · rcases List.mem_cons.mp hx with rfl | hx'
          · rw [h] at hk; injection hk with hk; exact absurd hk.symm hkk
          · obtain ⟨y, hy, hyk⟩ := ih (ka :: seen) x k hx' hk (by
              intro hmem
              rcases List.mem_cons.mp hmem with h1 | h2
              · exact hkk h1
              · exact hks h2)
            exact ⟨y, List.mem_cons_of_mem _ hy, hyk⟩

theorem dedupeGo_first_occurrence (l : List NormalizedJobInsert) :
    ∀ seen y, y ∈ dedupeGo seen l →
      l.find? (fun z => getJobDedupeKey z == getJobDedupeKey y) = some y := by
  induction l with
  | nil => intro seen y hy; simp [dedupeGo] at hy
  | cons a as ih =>
    intro seen y hy
    cases h : getJobDedupeKey a with
    | none =>
      simp only [dedupeGo, h] at hy
      obtain ⟨ky, hx⟩ := Option.ne_none_iff_exists'.mp (dedupeGo_key_isSome as seen y hy)
      rw [List.find?_cons_of_neg _ (by simp [h, hx])]
      exact ih seen y hy
    | some ka =>
      simp only [dedupeGo, h] at hy
      by_cases hka : ka ∈ seen
      · rw [if_pos hka] at hy
        obtain ⟨ky, hx⟩ := Option.ne_none_iff_exists'.mp (dedupeGo_key_isSome as seen y hy)
        have hfresh := dedupeGo_key_fresh as seen y hy ky hx
        have hne : ka ≠ ky := by intro hc; subst hc; exact hfresh hka
        rw [List.find?_cons_of_neg _ (by simp [h, hx, hne])]
        exact ih seen y hy
      · rw [if_neg hka] at hy
        rcases List.mem_cons.mp hy with rfl | hy'
        · rw [List.find?_cons_of_pos _ (by simp)]
        · obtain ⟨ky, hx⟩ :=
            Option.ne_none_iff_exists'.mp (dedupeGo_key_isSome as (ka :: seen) y hy')
          have hfresh := dedupeGo_key_fresh as (ka :: seen) y hy' ky hx
          have hne : ka ≠ ky := by
            intro hc; subst hc; exact hfresh (List.mem_cons_self _ _)
          rw [List.find?_cons_of_neg _ (by simp [h, hx, hne])]
          exact ih (ka :: seen) y hy'

theorem dedupeGo_idem (l : List NormalizedJobInsert) :
    ∀ seen, dedupeGo seen (dedupeGo seen l) = dedupeGo seen l := by
  induction l with
  | nil => intro seen; simp [dedupeGo]
  | cons a as ih =>
    intro seen
    cases h : getJobDedupeKey a with
    | none => simp only [dedupeGo, h]; exact ih seen
    | some k =>
      simp only [dedupeGo, h]
      by_cases hk : k ∈ seen
      · rw [if_pos hk]; exact ih seen
      · rw [if_neg hk]
        simp only [dedupeGo, h, if_neg hk]
        exact congrArg (List.cons a) (ih (k :: seen))

/-! ## Lemmas about the Normalizer -/

theorem getString_eq_some : ∀ (v : Option JSVal) (t : String), getString v = some t →
    ∃ s, v = some (JSVal.vStr s) ∧ t = jsTrim s ∧ t ≠ ""
  | some (JSVal.vStr s), t, h => by
    by_cases he : jsTrim s = ""
    · rw [getString, if_pos he] at h
      exact Option.noConfusion h
    · rw [getString, if_neg he] at h
      injection h with h
      exact ⟨s, rfl, h.symm, by rw [← h]; exact he⟩
  | none, _, h => Option.noConfusion h
  | some JSVal.vNull, _, h => Option.noConfusion h
  | some JSVal.vUndefined, _, h => Option.noConfusion h
  | some (JSVal.vBool _), _, h => Option.noConfusion h
  | some (JSVal.vNum _), _, h => Option.noConfusion h
  | some (JSVal.vArr _), _, h => Option.noConfusion h
  | some (JSVal.vObj _), _, h => Option.noConfusion h

theorem normalize_some_inv (toIso : String → Option String) (parseNum : String → Option Int)
    (item : JSVal) (rec : NormalizedJobInsert)
    (hrec : normalizeJSearchJob toIso parseNum item = some rec) :
    ∃ r title, asRecord item = some r ∧ getString (jsGet r "job_title") = some title ∧
      rec.title = title ∧
      rec.remote_type = inferRemoteType rec.is_remote rec.location_text := by
  unfold normalizeJSearchJob at hrec
  split at hrec
  · exact Option.noConfusion hrec
  · rename_i r ha
    split at hrec
    · exact Option.noConfusion hrec
    · rename_i title ht
      injection hrec with h
      subst h
      exact ⟨r, title, ha, ht, rfl, rfl⟩

theorem inferRemoteType_eq_cascade (b : Bool) (lt : Option String) :
    inferRemoteType b lt =
      (if b then some "remote"
       else if jsIncludes (jsToLower (lt.getD "")) "hybrid" then some "hybrid"
       else if (jsIncludes (jsToLower (lt.getD "")) "on-site" ||
           jsIncludes (jsToLower (lt.getD "")) "onsite" ||
           jsIncludes (jsToLower (lt.getD "")) "on site") then some "onsite"
       else none) := by
  cases b with
  | true => rfl
  | false =>
    by_cases ht : jsToLower (lt.getD "") = ""
    · simp only [inferRemoteType, ht, if_pos rfl, Bool.false_eq_true, if_false]
      decide
    · simp only [inferRemoteType, if_neg ht, Bool.false_eq_true, if_false]

/-! ## Claim theorems -/

/-- C1, counterexample to the claim as stated: the claim entails that a
record identified only by `external_job_id = "x"` and a record identified
only by `apply_url = "x"` get the same DedupeKey; on the code they do not
(`jsearch::id::x` versus `jsearch::url::x`). -/
theorem dedupeKey_claim_counterexample :
    ¬ getJobDedupeKey (mkKeyJob (some "x") none) =
        getJobDedupeKey (mkKeyJob none (some "x")) := by decide

theorem tagged_keys_ne (src s : String) : src ++ "::id::" ++ s ≠ src ++ "::url::" ++ s := by
  intro h
  have h' := congrArg String.length h
  simp only [String.length_append] at h'
  have h6 : ("::id::" : String).length = 6 := rfl
  have h7 : ("::url::" : String).length = 7 := rfl
  rw [h6, h7] at h'
  omega

/-- C1, amended: the DedupeKey is `source ++ "::id::" ++ external_job_id`
when a non-empty `external_job_id` is present, else
`source ++ "::url::" ++ apply_url` when a non-empty `apply_url` is present,
else no key is produced; because of the discriminator, a record keyed by
`external_job_id = s` never shares its DedupeKey with a record (with no
`external_job_id`) keyed by `apply_url = s`. -/
theorem dedupeKey_tagged_concatenation :
    (∀ job : NormalizedJobInsert, getJobDedupeKey job = dedupeKeySpec job) ∧
    (∀ (j1 j2 : NormalizedJobInsert) (s : String), j1.source = j2.source →
      j1.external_job_id = some s → s ≠ "" → j2.external_job_id = none →
      j2.apply_url = some s → getJobDedupeKey j1 ≠ getJobDedupeKey j2) := by
  constructor
  · intro job
    rcases he : job.external_job_id with _ | s
    · rcases hu : job.apply_url with _ | u
      · simp [getJobDedupeKey, dedupeKeySpec, presentStr, he, hu]
      · by_cases h : u = "" <;>
          simp [getJobDedupeKey, dedupeKeySpec, presentStr, he, hu, h]
    · by_cases hs : s = ""
      · rcases hu : job.apply_url with _ | u
        · simp [getJobDedupeKey, dedupeKeySpec, presentStr, he, hu, hs]
        · by_cases h : u = "" <;>
            simp [getJobDedupeKey, dedupeKeySpec, presentStr, he, hu, hs, h]
      · simp [getJobDedupeKey, dedupeKeySpec, presentStr, he, hs]
  · intro j1 j2 s hsrc h1 hs h2 h3
    simp only [getJobDedupeKey, h1, h2, h3, if_neg hs]
    rw [hsrc]
    intro hc
    injection hc with hc
    exact tagged_keys_ne j2.source s hc

/-- Witness for the amended C1 theorem at concrete records. -/
theorem dedupeKey_tagged_concatenation_witness :
    getJobDedupeKey (mkKeyJob (some "a") (some "u")) =
        dedupeKeySpec (mkKeyJob (some "a") (some "u")) ∧
      getJobDedupeKey (mkKeyJob (some "x") none) ≠
        getJobDedupeKey (mkKeyJob none (some "x")) :=
  ⟨dedupeKey_tagged_concatenation.1 (mkKeyJob (some "a") (some "u")),
    dedupeKey_tagged_concatenation.2 (mkKeyJob (some "x") none) (mkKeyJob none (some "x")) "x"
      rfl rfl (by decide) rfl rfl⟩

/-- C2: `normalizeJSearchJob` returns `none` exactly when the input is not an
object-like value or its `job_title` field does not hold a string that is
non-empty after trimming; on success the record's `title` is that trimmed
non-empty string. The embedded function is total, so rejection never raises
an error. Holds for every host date parser and number parser. -/
theorem normalize_none_iff_no_title (toIso : String → Option String)
    (parseNum : String → Option Int) (item : JSVal) :
    (normalizeJSearchJob toIso parseNum item = none ↔
      asRecord item = none ∨
        ∃ r, asRecord item = some r ∧ getString (jsGet r "job_title") = none) ∧
    (∀ rec, normalizeJSearchJob toIso parseNum item = some rec →
      ∃ r s, asRecord item = some r ∧ jsGet r "job_title" = some (JSVal.vStr s) ∧
        rec.title = jsTrim s ∧ rec.title ≠ "") := by
  constructor
  · constructor
    · intro h
      cases ha : asRecord item with
      | none => exact Or.inl rfl
      | some r =>
        refine Or.inr ⟨r, rfl, ?_⟩
        cases ht : getString (jsGet r "job_title") with
        | none => rfl
        | some title =>
          unfold normalizeJSearchJob at h
          rw [ha] at h
          simp only [ht] at h
          exact Option.noConfusion h
    · intro h
      rcases h with ha | ⟨r, ha, ht⟩
      · unfold normalizeJSearchJob
        rw [ha]
      · unfold normalizeJSearchJob
        rw [ha]
        simp only [ht]
  · intro rec hrec
    obtain ⟨r, title, ha, ht, htitle, -⟩ :=
      normalize_some_inv toIso parseNum item rec hrec
    obtain ⟨s, hv, hts, hne⟩ := getString_eq_some _ _ ht
    exact ⟨r, s, ha, hv, by rw [htitle, hts], by rw [htitle]; exact hne⟩

/-- Witness for the C2 theorem at a concrete item. -/
theorem normalize_none_iff_no_title_witness :
    ∃ r s, asRecord itemRemote = some r ∧ jsGet r "job_title" = some (JSVal.vStr s) ∧
      recRemote.title = jsTrim s ∧ recRemote.title ≠ "" :=
  (normalize_none_iff_no_title hostNoIso hostNoNum itemRemote).2 recRemote rfl

/-- C3: in every record produced by `normalizeJSearchJob`, `is_remote = true`
forces `remote_type = "remote"`. Holds for every host date and number
parser. -/
theorem normalize_isRemote_forces_remote (toIso : String → Option String)
    (parseNum : String → Option Int) (item : JSVal) (rec : NormalizedJobInsert)
    (hrec : normalizeJSearchJob toIso parseNum item = some rec)
    (hr : rec.is_remote = true) : rec.remote_type = some "remote" := by
  obtain ⟨-, -, -, -, -, hrt⟩ := normalize_some_inv toIso parseNum item rec hrec
  rw [hrt, hr]
  rfl

/-- Witness for the C3 theorem at a concrete item. -/
theorem normalize_isRemote_forces_remote_witness : recRemote.remote_type = some "remote" :=
  normalize_isRemote_forces_remote hostNoIso hostNoNum itemRemote recRemote rfl rfl

/-- C4: in every record produced by `normalizeJSearchJob`, `remote_type` is
decided by the first matching rule of the fixed cascade: `is_remote` gives
`"remote"`; else a location text containing `"hybrid"` (case-insensitively)
gives `"hybrid"`; else a location text containing `"on-site"`, `"onsite"` or
`"on site"` gives `"onsite"`; else no value. -/
theorem normalize_remoteType_cascade (toIso : String → Option String)
    (parseNum : String → Option Int) (item : JSVal) (rec : NormalizedJobInsert)
    (hrec : normalizeJSearchJob toIso parseNum item = some rec) :
    rec.remote_type =
      (if rec.is_remote then some "remote"
       else if jsIncludes (jsToLower (rec.location_text.getD "")) "hybrid" then some "hybrid"
       else if (jsIncludes (jsToLower (rec.location_text.getD "")) "on-site" ||
           jsIncludes (jsToLower (rec.location_text.getD "")) "onsite" ||
           jsIncludes (jsToLower (rec.location_text.getD "")) "on site") then some "onsite"
       else none) := by
  obtain ⟨-, -, -, -, -, hrt⟩ := normalize_some_inv toIso parseNum item rec hrec
  rw [hrt, inferRemoteType_eq_cascade]

/-- Witness for the C4 theorem at a concrete item. -/
theorem normalize_remoteType_cascade_witness :
    recHybrid.remote_type =
      (if recHybrid.is_remote then some "remote"
       else if jsIncludes (jsToLower (recHybrid.location_text.getD "")) "hybrid" then
         some "hybrid"
       else if (jsIncludes (jsToLower (recHybrid.location_text.getD "")) "on-site" ||
           jsIncludes (jsToLower (recHybrid.location_text.getD "")) "onsite" ||
           jsIncludes (jsToLower (recHybrid.location_text.getD "")) "on site") then
         some "onsite"
       else none) :=
  normalize_remoteType_cascade hostNoIso hostNoNum itemHybrid recHybrid rfl

/-- C5: the Deduplicator is idempotent. -/
theorem dedupe_idempotent (xs : List NormalizedJobInsert) :
    dedupeNormalizedJobs (dedupeNormalizedJobs xs) = dedupeNormalizedJobs xs :=
  dedupeGo_idem xs []

/-- C6: the Deduplicator's output is an order-preserving subsequence of its
input; every kept record is keyable; kept DedupeKeys are pairwise distinct;
every keyable input record has a representative with its key in the output;
and each kept record is the first occurrence of its key in the input. -/
theorem dedupe_characterization (xs : List NormalizedJobInsert) :
    (dedupeNormalizedJobs xs).Sublist xs ∧
    (∀ j, j ∈ dedupeNormalizedJobs xs → getJobDedupeKey j ≠ none) ∧
    (dedupeNormalizedJobs xs).Pairwise
      (fun a b => getJobDedupeKey a ≠ getJobDedupeKey b) ∧
    (∀ x, x ∈ xs → getJobDedupeKey x ≠ none →
      ∃ y, y ∈ dedupeNormalizedJobs xs ∧ getJobDedupeKey y = getJobDedupeKey x) ∧
    (∀ y, y ∈ dedupeNormalizedJobs xs →
      xs.find? (fun z => getJobDedupeKey z == getJobDedupeKey y) = some y) := by
  refine ⟨dedupeGo_sublist xs [], dedupeGo_key_isSome xs [], dedupeGo_pairwise_keys xs [],
    ?_, dedupeGo_first_occurrence xs []⟩
  intro x hx hk
  obtain ⟨k, hk'⟩ := Option.ne_none_iff_exists'.mp hk
  obtain ⟨y, hy, hyk⟩ := dedupeGo_complete xs [] x k hx hk' (List.not_mem_nil k)
  exact ⟨y, hy, by rw [hyk, hk']⟩

/-- Witness for the C6 theorem at a concrete batch: the duplicate-keyed
second record is represented in the output, and the kept record is the first
occurrence of its key. -/
theorem dedupe_characterization_witness :
    (∃ y, y ∈ dedupeNormalizedJobs [mkKeyJob (some "a") none, mkKeyJob (some "a") (some "u")] ∧
      getJobDedupeKey y = getJobDedupeKey (mkKeyJob (some "a") (some "u"))) ∧
    ([mkKeyJob (some "a") none, mkKeyJob (some "a") (some "u")].find?
        (fun z => getJobDedupeKey z == getJobDedupeKey (mkKeyJob (some "a") none)) =
      some (mkKeyJob (some "a") none)) :=
  ⟨(dedupe_characterization [mkKeyJob (some "a") none, mkKeyJob (some "a") (some "u")]).2.2.2.1
      (mkKeyJob (some "a") (some "u"))
      (List.mem_cons_of_mem _ (List.mem_cons_self _ _)) (by decide),
    (dedupe_characterization [mkKeyJob (some "a") none, mkKeyJob (some "a") (some "u")]).2.2.2.2
      (mkKeyJob (some "a") none) (List.mem_cons_self _ _)⟩

/-- C7: `buildQuery` implements the four-case combination policy: remote
intent containing `"remote"` (case-insensitively) together with a non-empty
trimmed location gives `"<role> remote in <location>"`; remote intent alone
`"<role> remote"`; location alone `"<role> in <location>"`; neither, the
bare role. -/
theorem buildQuery_matches_spec (role : String) (locationPref remoteIntent : Option String) :
    buildQuery role locationPref remoteIntent = buildQuerySpec role locationPref remoteIntent := by
  unfold buildQuery buildQuerySpec
  by_cases hw : jsIncludes (jsToLower (remoteIntent.getD "")) "remote" <;>
    by_cases hl : jsTrim (locationPref.getD "") = "" <;>
      simp [hw, hl]

/-- C8: the orchestrator's role selection keeps exactly the first 3 (or
fewer) trimmed non-empty roles in their original order, and one upstream
query is issued per selected role; in particular for roles
`["A", "B", "C", "D"]` exactly the three queries for A, B and C are built. -/
theorem pickRoles_caps_at_three :
    (∀ raw : List String,
      pickRoles (some raw) = ((raw.map jsTrim).filter (fun r => r != "")).take 3) ∧
    (∀ (roles : Option (List String)) (loc intent : Option String),
      (syncQueries roles loc intent).length = (pickRoles roles).length) ∧
    (∀ loc intent : Option String,
      syncQueries (some ["A", "B", "C", "D"]) loc intent =
        [buildQuery "A" loc intent, buildQuery "B" loc intent, buildQuery "C" loc intent]) := by
  refine ⟨?_, ?_, ?_⟩
  · intro raw
    unfold pickRoles
    simp only [Option.getD_some]
    congr 1
    apply List.filter_congr
    intro a _
    by_cases h : a = ""
    · subst h; rfl
    · have hlen : 0 < a.length := by
        cases a with
        | mk data =>
          cases data with
          | nil => exact absurd rfl h
          | cons c cs => simp [String.length]
      simp [hlen, bne_iff_ne, h]
  · intro roles loc intent
    exact List.length_map _ _
  · intro loc intent
    rfl

/-! ## Lemmas about the insert loop -/

theorem insertOk_none : insertOk none = true := rfl

theorem insertOk_some (e : InsertError) : insertOk (some e) = false := rfl

theorem insertDup_none : insertDup none = false := rfl

theorem insertDup_some (e : InsertError) :
    insertDup (some e) = (e.code == some "23505") := rfl

theorem insertOtherFail_none : insertOtherFail none = false := rfl

theorem insertOtherFail_some (e : InsertError) :
    insertOtherFail (some e) = !(e.code == some "23505") := rfl

theorem insertLoop_eq (ins : NormalizedJobInsert → Option InsertError)
    (l : List NormalizedJobInsert) : ∀ i s f,
    insertLoop ins l i s f =
      (i + l.countP (fun j => insertOk (ins j)),
       s + l.countP (fun j => insertDup (ins j)),
       f + l.countP (fun j => insertOtherFail (ins j))) := by
  induction l with
  | nil => intro i s f; simp [insertLoop]
  | cons a as ih =>
    intro i s f
    cases h : ins a with
    | none =>
      simp only [insertLoop, h, ih, List.countP_cons, insertOk_none, insertDup_none,
        insertOtherFail_none, if_true, if_false, Bool.false_eq_true]
      refine congrArg₂ Prod.mk (by omega) (congrArg₂ Prod.mk (by omega) (by omega))
    | some e =>
      by_cases hc : e.code = some "23505"
      · have hb : (e.code == some "23505") = true := by simp [hc]
        simp only [insertLoop, h, if_pos hc, ih, List.countP_cons, insertOk_some,
          insertDup_some, insertOtherFail_some, hb, Bool.not_true, if_true, if_false,
          Bool.false_eq_true]
        refine congrArg₂ Prod.mk (by omega) (congrArg₂ Prod.mk (by omega) (by omega))
      · have hb : (e.code == some "23505") = false := by simp [hc]
        simp only [insertLoop, h, if_neg hc, ih, List.countP_cons, insertOk_some,
          insertDup_some, insertOtherFail_some, hb, Bool.not_false, if_true, if_false,
          Bool.false_eq_true]
        refine congrArg₂ Prod.mk (by omega) (congrArg₂ Prod.mk (by omega) (by omega))

theorem insert_counts_partition (ins : NormalizedJobInsert → Option InsertError)
    (l : List NormalizedJobInsert) :
    l.countP (fun j => insertOk (ins j)) + l.countP (fun j => insertDup (ins j)) +
      l.countP (fun j => insertOtherFail (ins j)) = l.length := by
  induction l with
  | nil => rfl
  | cons a as ih =>
    simp only [List.countP_cons, List.length_cons]
    cases h : ins a with
    | none =>
      simp only [h, insertOk_none, insertDup_none, insertOtherFail_none, if_true, if_false,
        Bool.false_eq_true]
      omega
    | some e =>
      by_cases hc : e.code = some "23505"
      · have hb : (e.code == some "23505") = true := by simp [hc]
        simp only [h, insertOk_some, insertDup_some, insertOtherFail_some, hb, Bool.not_true,
          if_true, if_false, Bool.false_eq_true]
        omega
      · have hb : (e.code == some "23505") = false := by simp [hc]
        simp only [h, insertOk_some, insertDup_some, insertOtherFail_some, hb, Bool.not_false,
          if_true, if_false, Bool.false_eq_true]
        omega

/-- C9: the insert loop classifies every record of the batch independently:
a success bumps only `inserted`, a unique-violation error (code `"23505"`)
bumps only `skipped_duplicates`, any other error bumps only `failed`, and
every record of the batch is counted — no outcome stops the rest. -/
theorem insertLoop_accounts (ins : NormalizedJobInsert → Option InsertError)
    (jobs : List NormalizedJobInsert) :
    runInserts ins jobs =
      (jobs.countP (fun j => insertOk (ins j)),
       jobs.countP (fun j => insertDup (ins j)),
       jobs.countP (fun j => insertOtherFail (ins j))) ∧
    (runInserts ins jobs).1 + (runInserts ins jobs).2.1 + (runInserts ins jobs).2.2 =
      jobs.length := by
  have h := insertLoop_eq ins jobs 0 0 0
  simp only [Nat.zero_add] at h
  refine ⟨h, ?_⟩
  rw [runInserts, h]
  exact insert_counts_partition ins jobs

/-- C10: every successful run summary satisfies
`inserted + skipped_duplicates + failed = deduped_items` and
`deduped_items ≤ normalized_items ≤ fetched_items`. Holds for every host
parser, upstream fetch behavior, job store behavior and profile. -/
theorem runSync_counter_invariants (toIso : String → Option String)
    (parseNum : String → Option Int) (fetch : String → List JSVal)
    (ins : NormalizedJobInsert → Option InsertError) (profile : ResumeProfileRow)
    (summary : SyncRunSummary)
    (h : runSync toIso parseNum fetch ins profile = some summary) :
    summary.inserted + summary.skipped_duplicates + summary.failed =
        summary.deduped_items ∧
      summary.deduped_items ≤ summary.normalized_items ∧
      summary.normalized_items ≤ summary.fetched_items := by
  simp only [runSync] at h
  split at h
  · exact Option.noConfusion h
  · injection h with h
    subst h
    refine ⟨?_, ?_, ?_⟩
    · have hacc := (insertLoop_accounts ins (dedupeNormalizedJobs
        ((((pickRoles (some (profile.roles.getD []))).map (fun role =>
          fetch (buildQuery role profile.location_preference
            profile.remote_intent))).flatten).filterMap
          (fun it => normalizeJSearchJob toIso parseNum it)))).2
      exact hacc
    · exact (dedupeGo_sublist _ []).length_le
    · exact List.length_filterMap_le _ _

/-- Witness for the C10 theorem at a concrete run. -/
theorem runSync_counter_invariants_witness :
    sampleSummary.inserted + sampleSummary.skipped_duplicates + sampleSummary.failed =
        sampleSummary.deduped_items ∧
      sampleSummary.deduped_items ≤ sampleSummary.normalized_items ∧
      sampleSummary.normalized_items ≤ sampleSummary.fetched_items :=
  runSync_counter_invariants hostNoIso hostNoNum (fun _ => []) (fun _ => none)
    sampleProfile sampleSummary rfl
